import Mathlib

/-!
Shallow embedding of `recipe_costing.py`, an interactive command-line
recipe-costing tool.

Modelling conventions:
- Python floats are modelled as rationals (`ℚ`); the program only adds,
  multiplies and divides user-entered numbers.
- Interactive `input()` calls are modelled by explicit input streams:
  a prompt-retry loop consumes a list of attempted entries (with `none`
  standing for a `ValueError` on `float(...)`) and returns `none` when the
  stream is exhausted (the Python loop would keep blocking on input).
- A Python `dict` is modelled as an association list in insertion order:
  assignment updates an existing key in place and appends a new key at the
  end, matching CPython's ordered-dict semantics.
- The file system is modelled at the parsed-JSON level: a file name maps to
  either a well-formed flat string-to-number object or malformed content;
  `json.dump`/`json.load` of such an object is treated as the identity on
  the parsed mapping.
-/

set_option autoImplicit false

namespace RecipeCosting

/-- Python `s.lower()`: lowercase every character. -/
def pyLower (s : String) : String :=
  String.mk (s.data.map Char.toLower)

/-- Python `s.strip()`: drop whitespace from both ends. -/
def pyStrip (s : String) : String :=
  String.mk (((s.data.dropWhile Char.isWhitespace).reverse.dropWhile Char.isWhitespace).reverse)

/-- Python `d[k]` lookup for a string-keyed mapping in insertion order:
the value at the first (and, for a genuine dict, only) entry whose key
equals `k`. -/
def dictGet (db : List (String × ℚ)) (k : String) : Option ℚ :=
  (db.find? (fun p => decide (p.1 = k))).map Prod.snd

/-- Python `d[k] = v`: replace the value at an existing key in place,
otherwise append the new entry at the end (insertion order). -/
def dictSet (db : List (String × ℚ)) (k : String) (v : ℚ) : List (String × ℚ) :=
  match db with
  | [] => [(k, v)]
  | (k', v') :: rest => if k' = k then (k', v) :: rest else (k', v') :: dictSet rest k v

/-- Python `int(x)` on a float: truncation toward zero. -/
def pyInt (q : ℚ) : ℤ :=
  if 0 ≤ q then ⌊q⌋ else -⌊-q⌋

/-- Banker's rounding of a rational to the nearest integer, ties to even,
modelling Python's `round` on the exact value. -/
def roundHalfEven (q : ℚ) : ℤ :=
  let f := ⌊q⌋
  let r := q - (f : ℚ)
  if r < 1/2 then f
  else if 1/2 < r then f + 1
  else if f % 2 = 0 then f else f + 1

/-- Python `round(x, 2)`: round to two decimal places. -/
def round2 (q : ℚ) : ℚ :=
  (roundHalfEven (q * 100) : ℚ) / 100

/-- Embeds `get_positive_float`: repeatedly read an entry until one parses
as a number and is strictly positive, then return it.  The input stream
lists the attempted entries; `none` models a `ValueError`.  Returns `none`
when the stream runs out (the Python loop would keep prompting). -/
def get_positive_float : List (Option ℚ) → Option ℚ
  | [] => none
  | none :: rest => get_positive_float rest
  | some v :: rest => if 0 < v then some v else get_positive_float rest

/-- Embeds `get_non_empty_string`: repeatedly read a line until its
stripped form is non-empty, and return that stripped form. -/
def get_non_empty_string : List String → Option String
  | [] => none
  | s :: rest => if pyStrip s ≠ "" then some (pyStrip s) else get_non_empty_string rest

/-- Result of `suggest_name`: the returned name, together with the
suggestion shown in the confirmation prompt (`none` when no prompt was
issued). -/
structure SuggestResult where
  result : String
  offered : Option String
deriving Repr, DecidableEq

/-- The candidate list of `suggest_name`'s fuzzy branch: every valid name
whose lowercase form contains the lowercase typed name as a substring, or
starts with it, in iteration order. -/
def suggestions (input_name : String) (valid_names : List String) : List String :=
  let input_name_lower := pyLower input_name
  valid_names.filter (fun name =>
    decide (input_name_lower.data <:+: (pyLower name).data)
      || decide (input_name_lower.data <+: (pyLower name).data))

/-- Embeds `suggest_name`: first scan `valid_names` for a case-insensitive
exact match and return it with no prompt; otherwise compute the fuzzy
candidates, and if any exist offer the first, returning it when the
stripped lowercased confirmation equals "y" and the typed name otherwise;
with no candidates return the typed name with no prompt.  `confirm` is the
reply the user would give to the confirmation prompt. -/
def suggest_name (input_name : String) (valid_names : List String)
    (confirm : String) : SuggestResult :=
  let input_name_lower := pyLower input_name
  match valid_names.find? (fun name => decide (pyLower name = input_name_lower)) with
  | some name => ⟨name, none⟩
  | none =>
    match suggestions input_name valid_names with
    | [] => ⟨input_name, none⟩
    | suggestion :: _ =>
      ⟨if pyLower (pyStrip confirm) = "y" then suggestion else input_name, some suggestion⟩

/-- Candidate list computed from the substring-containment clause alone,
for comparison with the two-clause filter of the source. -/
def suggestionsContainsOnly (input_name : String) (valid_names : List String) : List String :=
  let input_name_lower := pyLower input_name
  valid_names.filter (fun name => decide (input_name_lower.data <:+: (pyLower name).data))

/-- Embeds the `Ingredient` class: a weighed ingredient with its cost per
gram. -/
structure Ingredient where
  name : String
  weight_g : ℚ
  cost_per_g : ℚ
deriving Repr, DecidableEq

/-- Embeds `Ingredient.total_cost`. -/
def Ingredient.total_cost (i : Ingredient) : ℚ :=
  i.weight_g * i.cost_per_g

/-- Embeds the `Recipe` class: a named recipe with a portion count and an
ordered list of ingredients. -/
structure Recipe where
  name : String
  portions : ℤ
  ingredients : List Ingredient
deriving Repr, DecidableEq

/-- Embeds `Recipe.add_ingredient`: append to the ingredient list. -/
def Recipe.add_ingredient (r : Recipe) (i : Ingredient) : Recipe :=
  { r with ingredients := r.ingredients ++ [i] }

/-- Embeds `Recipe.total_cost`: sum of the ingredients' total costs. -/
def Recipe.total_cost (r : Recipe) : ℚ :=
  (r.ingredients.map Ingredient.total_cost).sum

/-- Embeds `Recipe.cost_per_portion`: total cost divided by portions. -/
def Recipe.cost_per_portion (r : Recipe) : ℚ :=
  r.total_cost / (r.portions : ℚ)

/-- Parsed content of a store file: either a well-formed flat JSON object
mapping names to numbers, or malformed content on which `json.load` raises. -/
inductive FileData where
  | obj (entries : List (String × ℚ))
  | malformed
deriving Repr, DecidableEq

/-- The file system as seen by the program: the list of existing files with
their parsed contents. -/
abbrev FS := List (String × FileData)

/-- Content of an existing file, `none` when the file does not exist. -/
def fsGet (fs : FS) (filename : String) : Option FileData :=
  (fs.find? (fun p => decide (p.1 = filename))).map Prod.snd

/-- Writing a file: replace the content of an existing file, else create it. -/
def fsSet (fs : FS) (filename : String) (d : FileData) : FS :=
  match fs with
  | [] => [(filename, d)]
  | (f, d') :: rest => if f = filename then (f, d) :: rest else (f, d') :: fsSet rest filename d

/-- The `INGREDIENTS_FILE` constant. -/
def INGREDIENTS_FILE : String := "ingredients.json"

/-- The `RECIPES_FILE` constant. -/
def RECIPES_FILE : String := "recipes.json"

/-- Embeds `RecipeManager.load_data`: if the file exists, parse it as JSON
(raising on malformed content, modelled by `Except.error`); otherwise
return the empty mapping. -/
def load_data (fs : FS) (filename : String) : Except Unit (List (String × ℚ)) :=
  match fsGet fs filename with
  | some (FileData.obj m) => Except.ok m
  | some FileData.malformed => Except.error ()
  | none => Except.ok []

/-- Embeds `RecipeManager.save_data`: open the file for writing and dump
the mapping as JSON, overwriting the file wholesale. -/
def save_data (fs : FS) (filename : String) (data : List (String × ℚ)) : FS :=
  fsSet fs filename (FileData.obj data)

/-- The mutable state of a `RecipeManager` session: the two in-memory
stores and the file system. -/
structure MState where
  ingredients_db : List (String × ℚ)
  recipes_db : List (String × ℚ)
  fs : FS
deriving Repr, DecidableEq

/-- Embeds `RecipeManager.get_cost_per_gram`: resolve the name against the
ingredient store's keys, return the stored cost when present; otherwise
read a positive cost, insert it into the store, persist the store to disk
and return it.  `confirm` answers the resolution prompt, `cost_inputs`
feeds the cost prompt; the result is the updated state paired with the
returned cost (`none` when the cost input stream ran out). -/
def get_cost_per_gram (st : MState) (name0 : String) (confirm : String)
    (cost_inputs : List (Option ℚ)) : MState × Option ℚ :=
  let name := (suggest_name name0 (st.ingredients_db.map Prod.fst) confirm).result
  match dictGet st.ingredients_db name with
  | some c => (st, some c)
  | none =>
    match get_positive_float cost_inputs with
    | none => (st, none)
    | some cost =>
      let db := dictSet st.ingredients_db name cost
      ({ st with ingredients_db := db, fs := save_data st.fs INGREDIENTS_FILE db }, some cost)

/-- One iteration of `create_recipe`'s ingredient loop, as the inputs the
user supplies during it: attempts at the ingredient name, the reply to a
possible resolution prompt, attempts at the weight, the reply to the
resolution prompt inside `get_cost_per_gram`, attempts at the cost, and
the reply to "Add another ingredient?". -/
structure Round where
  ing_name_inputs : List String
  name_confirm : String
  weight_inputs : List (Option ℚ)
  cost_confirm : String
  cost_inputs : List (Option ℚ)
  cont : String

/-- The ingredient loop of `create_recipe`: read and resolve an ingredient
name, read a weight, obtain the cost per gram, append the ingredient to
the recipe, and repeat while the continuation reply lowercases to "y".
Returns the state reached together with the finished recipe, or `none`
for it when some input stream ran out before the loop broke. -/
def create_loop (st : MState) (recipe : Recipe) : List Round → MState × Option Recipe
  | [] => (st, none)
  | r :: rest =>
    match get_non_empty_string r.ing_name_inputs with
    | none => (st, none)
    | some typed =>
      let ing_name := (suggest_name typed (st.ingredients_db.map Prod.fst) r.name_confirm).result
      match get_positive_float r.weight_inputs with
      | none => (st, none)
      | some weight =>
        match get_cost_per_gram st ing_name r.cost_confirm r.cost_inputs with
        | (st', none) => (st', none)
        | (st', some cost_per_g) =>
          let recipe' := recipe.add_ingredient ⟨ing_name, weight, cost_per_g⟩
          if pyLower r.cont = "y" then create_loop st' recipe' rest
          else (st', some recipe')

/-- The inputs of a whole `create_recipe` session: attempts at the recipe
name, attempts at the portion count, and the ingredient rounds. -/
structure CreateInputs where
  name_inputs : List String
  portions_inputs : List (Option ℚ)
  rounds : List Round

/-- Embeds `RecipeManager.create_recipe`: read a recipe name and a portion
count (a positive float truncated to an integer), run the ingredient loop,
compute the cost per portion, store its rounded value under the recipe
name and persist the recipe store.  Returns the updated state paired with
the reported name and cost per portion; the second component is `none`
when the session did not complete (an input stream ran out, or the
division by zero portions raised). -/
def create_recipe (st : MState) (inp : CreateInputs) : MState × Option (String × ℚ) :=
  match get_non_empty_string inp.name_inputs with
  | none => (st, none)
  | some name =>
    match get_positive_float inp.portions_inputs with
    | none => (st, none)
    | some pf =>
      let portions := pyInt pf
      match create_loop st (Recipe.mk name portions []) inp.rounds with
      | (st', none) => (st', none)
      | (st', some recipe) =>
        if portions = 0 then (st', none)
        else
          let cost := recipe.cost_per_portion
          let db := dictSet st'.recipes_db name (round2 cost)
          ({ st' with recipes_db := db, fs := save_data st'.fs RECIPES_FILE db },
           some (name, cost))

/-- Embeds `RecipeManager.view_recipe_cost`: prints every stored recipe
name with its cost and changes nothing; the printed entries are returned
in store order, the state unchanged. -/
def view_recipe_cost (st : MState) : MState × List (String × ℚ) :=
  (st, st.recipes_db)

/-- One user-level operation on the manager, with the interactive inputs
it consumes. -/
inductive Op where
  | getCost (name confirm : String) (cost_inputs : List (Option ℚ))
  | create (inp : CreateInputs)
  | view

/-- Run one operation for its state effect. -/
def runOp (st : MState) : Op → MState
  | Op.getCost n c ci => (get_cost_per_gram st n c ci).1
  | Op.create inp => (create_recipe st inp).1
  | Op.view => (view_recipe_cost st).1

/-- Run a sequence of operations. -/
def runOps (st : MState) (ops : List Op) : MState :=
  ops.foldl runOp st

/-! Helper lemmas about the embedded operations. -/

/-- A value returned by the positive-float prompt is strictly positive. -/
theorem get_positive_float_pos : ∀ {l : List (Option ℚ)} {v : ℚ},
    get_positive_float l = some v → 0 < v := by
  intro l
  induction l with
  | nil => intro v h; simp [get_positive_float] at h
  | cons a rest ih =>
    intro v h
    cases a with
    | none => exact ih h
    | some x =>
      by_cases hx : 0 < x
      · simp [get_positive_float, hx] at h
        subst h; exact hx
      · simp [get_positive_float, hx] at h
        exact ih h

/-- Assignment stores the value at the assigned key. -/
theorem dictGet_dictSet_self : ∀ (db : List (String × ℚ)) (k : String) (v : ℚ),
    dictGet (dictSet db k v) k = some v := by
  intro db k v
  induction db with
  | nil => simp [dictGet, dictSet, List.find?]
  | cons p rest ih =>
    obtain ⟨k', v'⟩ := p
    by_cases h : k' = k
    · subst h
      simp [dictGet, dictSet, List.find?]
    · simp only [dictSet, if_neg h]
      simpa [dictGet, List.find?, h] using ih

/-- Assignment does not touch other keys. -/
theorem dictGet_dictSet_ne : ∀ (db : List (String × ℚ)) (k k' : String) (v : ℚ),
    k' ≠ k → dictGet (dictSet db k v) k' = dictGet db k' := by
  intro db k k' v hne
  have hkk' : ¬ (k = k') := fun e => hne e.symm
  induction db with
  | nil => simp [dictGet, dictSet, List.find?, hkk']
  | cons p rest ih =>
    obtain ⟨k₀, v₀⟩ := p
    by_cases h : k₀ = k
    · subst h
      simp [dictGet, dictSet, List.find?, hkk']
    · simp only [dictSet, if_neg h]
      by_cases h' : k₀ = k'
      · subst h'
        simp [dictGet, List.find?]
      · simpa [dictGet, List.find?, h'] using ih

/-- Writing a file stores its content. -/
theorem fsGet_fsSet_self : ∀ (fs : FS) (filename : String) (d : FileData),
    fsGet (fsSet fs filename d) filename = some d := by
  intro fs filename d
  induction fs with
  | nil => simp [fsGet, fsSet, List.find?]
  | cons p rest ih =>
    obtain ⟨f, d'⟩ := p
    by_cases h : f = filename
    · subst h
      simp [fsGet, fsSet, List.find?]
    · simp only [fsSet, if_neg h]
      simpa [fsGet, List.find?, h] using ih

/-- A list prefix is in particular a contiguous sublist. -/
theorem prefix_implies_substring {α : Type} {l₁ l₂ : List α} (h : l₁ <+: l₂) :
    l₁ <:+: l₂ := by
  obtain ⟨t, ht⟩ := h
  exact ⟨[], t, by simpa using ht⟩

/-- When the resolved name is already stored, `get_cost_per_gram` returns
the stored cost and leaves the state untouched. -/
theorem get_cost_per_gram_present (st : MState) (name0 confirm : String)
    (ci : List (Option ℚ)) (c : ℚ)
    (h : dictGet st.ingredients_db
      ((suggest_name name0 (st.ingredients_db.map Prod.fst) confirm).result) = some c) :
    get_cost_per_gram st name0 confirm ci = (st, some c) := by
  unfold get_cost_per_gram
  simp [h]

/-- When the resolved name is absent, `get_cost_per_gram` inserts the
freshly read cost into the ingredient store, persists that store to the
ingredients file, and returns the cost. -/
theorem get_cost_per_gram_absent (st : MState) (name0 confirm : String)
    (ci : List (Option ℚ)) (cost : ℚ)
    (hab : dictGet st.ingredients_db
      ((suggest_name name0 (st.ingredients_db.map Prod.fst) confirm).result) = none)
    (hc : get_positive_float ci = some cost) :
    get_cost_per_gram st name0 confirm ci =
      ({ st with
          ingredients_db := dictSet st.ingredients_db
            ((suggest_name name0 (st.ingredients_db.map Prod.fst) confirm).result) cost,
          fs := save_data st.fs INGREDIENTS_FILE
            (dictSet st.ingredients_db
              ((suggest_name name0 (st.ingredients_db.map Prod.fst) confirm).result) cost) },
        some cost) := by
  unfold get_cost_per_gram
  simp [hab, hc]

/-- `get_cost_per_gram` never changes the recipe store. -/
theorem get_cost_recipes_db (st : MState) (name0 confirm : String)
    (ci : List (Option ℚ)) :
    (get_cost_per_gram st name0 confirm ci).1.recipes_db = st.recipes_db := by
  unfold get_cost_per_gram
  dsimp only
  split
  · rfl
  · split
    · rfl
    · rfl

/-- `get_cost_per_gram` preserves every existing ingredient-store entry. -/
theorem get_cost_ing_mono (st : MState) (name0 confirm : String)
    (ci : List (Option ℚ)) (k : String) (v : ℚ)
    (h : dictGet st.ingredients_db k = some v) :
    dictGet (get_cost_per_gram st name0 confirm ci).1.ingredients_db k = some v := by
  unfold get_cost_per_gram
  dsimp only
  split
  · exact h
  · next hab =>
    split
    · exact h
    · next cost hc =>
      dsimp only
      rw [dictGet_dictSet_ne]
      · exact h
      · intro e
        rw [← e, h] at hab
        exact Option.noConfusion hab

/-- The ingredient loop never changes the recipe store. -/
theorem create_loop_recipes_db : ∀ (rounds : List Round) (st : MState) (recipe : Recipe),
    (create_loop st recipe rounds).1.recipes_db = st.recipes_db := by
  intro rounds
  induction rounds with
  | nil => intro st recipe; rfl
  | cons r rest ih =>
    intro st recipe
    unfold create_loop
    dsimp only
    split
    · rfl
    next typed htyped =>
      split
      · rfl
      next weight hweight =>
        split
        next st' heq =>
          have h := get_cost_recipes_db st
            ((suggest_name typed (st.ingredients_db.map Prod.fst) r.name_confirm).result)
            r.cost_confirm r.cost_inputs
          rw [heq] at h
          exact h
        next st' cost_per_g heq =>
          have h := get_cost_recipes_db st
            ((suggest_name typed (st.ingredients_db.map Prod.fst) r.name_confirm).result)
            r.cost_confirm r.cost_inputs
          rw [heq] at h
          split
          · rw [ih st' _]
            exact h
          · exact h

/-- The ingredient loop preserves every existing ingredient-store entry. -/
theorem create_loop_ing_mono : ∀ (rounds : List Round) (st : MState) (recipe : Recipe)
    (k : String) (v : ℚ), dictGet st.ingredients_db k = some v →
    dictGet (create_loop st recipe rounds).1.ingredients_db k = some v := by
  intro rounds
  induction rounds with
  | nil => intro st recipe k v h; exact h
  | cons r rest ih =>
    intro st recipe k v h
    unfold create_loop
    dsimp only
    split
    · exact h
    next typed htyped =>
      split
      · exact h
      next weight hweight =>
        split
        next st' heq =>
          have hm := get_cost_ing_mono st
            ((suggest_name typed (st.ingredients_db.map Prod.fst) r.name_confirm).result)
            r.cost_confirm r.cost_inputs k v h
          rw [heq] at hm
          exact hm
        next st' cost_per_g heq =>
          have hm := get_cost_ing_mono st
            ((suggest_name typed (st.ingredients_db.map Prod.fst) r.name_confirm).result)
            r.cost_confirm r.cost_inputs k v h
          rw [heq] at hm
          split
          · exact ih st' _ k v hm
          · exact hm

/-- `create_recipe` preserves every existing ingredient-store entry. -/
theorem create_recipe_ing_mono (st : MState) (inp : CreateInputs) (k : String) (v : ℚ)
    (h : dictGet st.ingredients_db k = some v) :
    dictGet (create_recipe st inp).1.ingredients_db k = some v := by
  unfold create_recipe
  dsimp only
  split
  · exact h
  next name hname =>
    split
    · exact h
    next pf hpf =>
      split
      next st₁ hloop =>
        have hm := create_loop_ing_mono inp.rounds st (Recipe.mk name (pyInt pf) []) k v h
        rw [hloop] at hm
        exact hm
      next st₁ recipe hloop =>
        have hm := create_loop_ing_mono inp.rounds st (Recipe.mk name (pyInt pf) []) k v h
        rw [hloop] at hm
        split
        · exact hm
        · exact hm

/-- A single operation preserves every existing ingredient-store entry. -/
theorem runOp_ing_mono (st : MState) (op : Op) (k : String) (v : ℚ)
    (h : dictGet st.ingredients_db k = some v) :
    dictGet (runOp st op).ingredients_db k = some v := by
  cases op with
  | getCost n c ci => exact get_cost_ing_mono st n c ci k v h
  | create inp => exact create_recipe_ing_mono st inp k v h
  | view => exact h

/-! The claims. -/

/-- C1: the claim that `get_positive_float` followed by truncation to int
never yields a zero portion count fails on the code.  At the failing input
0.5, the positivity check accepts the value, `int(0.5)` truncates it to 0,
and the surrounding `create_recipe` session then hits the division by zero
instead of completing. -/
theorem C1_portions_truncate_to_zero :
    get_positive_float [some (1/2)] = some (1/2) ∧
    pyInt (1/2) = 0 ∧
    (create_recipe (MState.mk [] [] [])
        (CreateInputs.mk ["Cake"] [some (1/2)]
          [Round.mk ["Eggs"] "" [some 100] "" [some (1/20)] "n"])).2 = none := by
  refine ⟨by norm_num [get_positive_float], by norm_num [pyInt], ?_⟩
  norm_num +decide [create_recipe, create_loop, get_cost_per_gram, suggest_name, suggestions,
    get_positive_float, get_non_empty_string, pyLower, pyStrip, pyInt, dictGet, dictSet,
    List.find?, List.filter, List.dropWhile]

/-- C2: for every recipe with at least one ingredient and a positive
portion count, the cost per portion equals the sum over the ingredients of
`weight_g * cost_per_g` divided by the portion count, and every
ingredient's total cost equals `weight_g * cost_per_g`. -/
theorem C2_cost_per_portion_formula (r : Recipe)
    (_h1 : 0 < r.portions) (_h2 : r.ingredients ≠ []) :
    r.cost_per_portion
      = (r.ingredients.map (fun i => i.weight_g * i.cost_per_g)).sum / (r.portions : ℚ)
    ∧ ∀ i : Ingredient, i.total_cost = i.weight_g * i.cost_per_g :=
  ⟨rfl, fun _ => rfl⟩

/-- Witness for C2 at a concrete one-ingredient recipe with four portions. -/
theorem C2_witness :
    (0 : ℤ) < (Recipe.mk "Pancakes" 4 [Ingredient.mk "Eggs" 100 (1/20)]).portions ∧
    (Recipe.mk "Pancakes" 4 [Ingredient.mk "Eggs" 100 (1/20)]).ingredients ≠ [] ∧
    ((Recipe.mk "Pancakes" 4 [Ingredient.mk "Eggs" 100 (1/20)]).cost_per_portion
      = ((Recipe.mk "Pancakes" 4 [Ingredient.mk "Eggs" 100 (1/20)]).ingredients.map
          (fun i => i.weight_g * i.cost_per_g)).sum
        / ((Recipe.mk "Pancakes" 4 [Ingredient.mk "Eggs" 100 (1/20)]).portions : ℚ)
     ∧ ∀ i : Ingredient, i.total_cost = i.weight_g * i.cost_per_g) :=
  ⟨by norm_num, by simp,
   C2_cost_per_portion_formula (Recipe.mk "Pancakes" 4 [Ingredient.mk "Eggs" 100 (1/20)])
     (by norm_num) (by simp)⟩

/-- C3, with the claim refuted as literally stated: the reply " y " is not
a case-insensitive "y" (even lowercased it keeps its spaces), yet the code
strips it first and substitutes the candidate instead of returning the
typed name. -/
theorem C3_counterexample :
    pyLower " y " ≠ "y" ∧
    suggest_name "Suga" ["Sugar"] " y " = ⟨"Sugar", some "Sugar"⟩ :=
  ⟨by decide, by decide⟩

/-- C3 (amended): when no case-insensitive exact match exists, an empty
candidate list makes `suggest_name` return the typed name with no prompt,
and a non-empty one makes it offer exactly the first candidate, returning
it when the reply, stripped of surrounding whitespace, lowercases to "y"
and the typed name otherwise. -/
theorem C3_fuzzy_resolution (input_name confirm : String) (valid_names : List String)
    (hno : ∀ n ∈ valid_names, pyLower n ≠ pyLower input_name) :
    (suggestions input_name valid_names = [] →
      suggest_name input_name valid_names confirm = ⟨input_name, none⟩) ∧
    ∀ c cs, suggestions input_name valid_names = c :: cs →
      suggest_name input_name valid_names confirm =
        ⟨if pyLower (pyStrip confirm) = "y" then c else input_name, some c⟩ := by
  have hfind :
      valid_names.find? (fun n => decide (pyLower n = pyLower input_name)) = none := by
    rw [List.find?_eq_none]
    intro x hx
    simpa using hno x hx
  constructor
  · intro hemp
    simp only [suggest_name, hfind, hemp]
  · intro c cs hc
    simp only [suggest_name, hfind, hc]

/-- Witness for C3: resolving "Suga" against the known name "Sugar" with
the confirming reply " Y ". -/
theorem C3_witness :
    suggest_name "Suga" ["Sugar"] " Y " =
      ⟨if pyLower (pyStrip " Y ") = "y" then "Sugar" else "Suga", some "Sugar"⟩ :=
  (C3_fuzzy_resolution "Suga" " Y " ["Sugar"] (by decide)).2 "Sugar" [] (by decide)

/-- C4: when some known name equals the typed name case-insensitively,
`suggest_name` issues no prompt and returns a stored known name whose
lowercase form is that of the typed name. -/
theorem C4_exact_match (input_name confirm : String) (valid_names : List String)
    (n : String) (hmem : n ∈ valid_names) (heq : pyLower n = pyLower input_name) :
    (suggest_name input_name valid_names confirm).offered = none ∧
    (suggest_name input_name valid_names confirm).result ∈ valid_names ∧
    pyLower (suggest_name input_name valid_names confirm).result = pyLower input_name := by
  cases hfind : valid_names.find? (fun m => decide (pyLower m = pyLower input_name)) with
  | none =>
    rw [List.find?_eq_none] at hfind
    exact absurd heq (by simpa using hfind n hmem)
  | some m =>
    have hmm : m ∈ valid_names := List.mem_of_find?_eq_some hfind
    have hmeq : pyLower m = pyLower input_name := by
      simpa using List.find?_some hfind
    simp [suggest_name, hfind, hmm, hmeq]

/-- Witness for C4: resolving "Flour" against the known name "flour". -/
theorem C4_witness :
    (suggest_name "Flour" ["flour"] "").offered = none ∧
    (suggest_name "Flour" ["flour"] "").result ∈ ["flour"] ∧
    pyLower (suggest_name "Flour" ["flour"] "").result = pyLower "Flour" :=
  C4_exact_match "Flour" "" ["flour"] "flour" (by decide) (by decide)

/-- C5: `get_cost_per_gram` first resolves the name against the
ingredient store's keys; when the resolved name is stored it returns the
stored cost with the state (store and disk) untouched, and when it is
absent it reads a positive cost, inserts the entry into the in-memory
store, persists the whole store to the ingredients file, and returns that
cost. -/
theorem C5_get_cost_per_gram (st : MState) (name0 confirm : String) (ci : List (Option ℚ)) :
    (∀ c, dictGet st.ingredients_db
        ((suggest_name name0 (st.ingredients_db.map Prod.fst) confirm).result) = some c →
      get_cost_per_gram st name0 confirm ci = (st, some c)) ∧
    (∀ cost, dictGet st.ingredients_db
        ((suggest_name name0 (st.ingredients_db.map Prod.fst) confirm).result) = none →
      get_positive_float ci = some cost →
        get_cost_per_gram st name0 confirm ci =
          ({ st with
              ingredients_db := dictSet st.ingredients_db
                ((suggest_name name0 (st.ingredients_db.map Prod.fst) confirm).result) cost,
              fs := save_data st.fs INGREDIENTS_FILE
                (dictSet st.ingredients_db
                  ((suggest_name name0 (st.ingredients_db.map Prod.fst) confirm).result)
                  cost) },
            some cost) ∧ 0 < cost) :=
  ⟨fun c h => get_cost_per_gram_present st name0 confirm ci c h,
   fun cost hab hc =>
     ⟨get_cost_per_gram_absent st name0 confirm ci cost hab hc, get_positive_float_pos hc⟩⟩

/-- Witness for C5: a fresh ingredient "Eggs" bought at 0.05 per gram is
inserted into the empty store and persisted. -/
theorem C5_witness :
    get_cost_per_gram (MState.mk [] [] []) "Eggs" "" [some (1/20)] =
      (MState.mk
        (dictSet [] ((suggest_name "Eggs" [] "").result) (1/20))
        []
        (save_data [] INGREDIENTS_FILE
          (dictSet [] ((suggest_name "Eggs" [] "").result) (1/20))),
       some (1/20)) ∧ (0 : ℚ) < 1/20 :=
  (C5_get_cost_per_gram (MState.mk [] [] []) "Eggs" "" [some (1/20)]).2 (1/20)
    rfl (by norm_num [get_positive_float])

/-- C6: a completed `create_recipe` session stores the rounded cost per
portion in the recipe store under the recipe's name, leaves every other
recipe entry unchanged, and persists the recipe store to the recipes
file. -/
theorem C6_create_recipe_persists (st : MState) (inp : CreateInputs)
    (st' : MState) (name : String) (cost : ℚ)
    (h : create_recipe st inp = (st', some (name, cost))) :
    dictGet st'.recipes_db name = some (round2 cost) ∧
    (∀ k, k ≠ name → dictGet st'.recipes_db k = dictGet st.recipes_db k) ∧
    fsGet st'.fs RECIPES_FILE = some (FileData.obj st'.recipes_db) := by
  unfold create_recipe at h
  dsimp only at h
  split at h
  · exact absurd h (by simp)
  next name₀ hname =>
    split at h
    · exact absurd h (by simp)
    next pf hpf =>
      split at h
      next st₁ hloop => exact absurd h (by simp)
      next st₁ recipe hloop =>
        split at h
        · exact absurd h (by simp)
        next hport =>
          injection h with h1 h2
          injection h2 with h2
          injection h2 with hn hc
          subst hn hc h1
          have hdb : st₁.recipes_db = st.recipes_db := by
            have := create_loop_recipes_db inp.rounds st (Recipe.mk name₀ (pyInt pf) [])
            rw [hloop] at this
            exact this
          refine ⟨dictGet_dictSet_self _ _ _, ?_, ?_⟩
          · intro k hk
            show dictGet (dictSet st₁.recipes_db name₀ (round2 recipe.cost_per_portion)) k
                = dictGet st.recipes_db k
            rw [dictGet_dictSet_ne st₁.recipes_db name₀ k (round2 recipe.cost_per_portion) hk,
              hdb]
          · exact fsGet_fsSet_self _ _ _

/-- Witness for C6: a complete "Pancakes" session with four portions and
one ingredient, ending in the store entry ("Pancakes", 1.25). -/
theorem C6_witness :
    create_recipe (MState.mk [] [] [])
        (CreateInputs.mk ["Pancakes"] [some 4]
          [Round.mk ["Eggs"] "" [some 100] "" [some (1/20)] "n"]) =
      (MState.mk [("Eggs", 1/20)] [("Pancakes", 5/4)]
        [(INGREDIENTS_FILE, FileData.obj [("Eggs", 1/20)]),
         (RECIPES_FILE, FileData.obj [("Pancakes", 5/4)])],
       some ("Pancakes", 5/4)) ∧
    dictGet [("Pancakes", 5/4)] "Pancakes" = some (round2 (5/4)) := by
  have h : create_recipe (MState.mk [] [] [])
      (CreateInputs.mk ["Pancakes"] [some 4]
        [Round.mk ["Eggs"] "" [some 100] "" [some (1/20)] "n"]) =
      (MState.mk [("Eggs", 1/20)] [("Pancakes", 5/4)]
        [(INGREDIENTS_FILE, FileData.obj [("Eggs", 1/20)]),
         (RECIPES_FILE, FileData.obj [("Pancakes", 5/4)])],
       some ("Pancakes", 5/4)) := by
    norm_num +decide [create_recipe, create_loop, get_cost_per_gram, suggest_name, suggestions,
      get_positive_float, get_non_empty_string, pyLower, pyStrip, pyInt, dictGet, dictSet,
      List.find?, List.filter, List.dropWhile, Recipe.cost_per_portion, Recipe.total_cost,
      Recipe.add_ingredient, Ingredient.total_cost, save_data, fsSet, round2, roundHalfEven,
      INGREDIENTS_FILE, RECIPES_FILE]
  exact ⟨h, (C6_create_recipe_persists _ _ _ "Pancakes" (5/4) h).1⟩

/-- C7: saving a mapping and loading the same file yields the mapping
back. -/
theorem C7_store_round_trip (fs : FS) (filename : String) (m : List (String × ℚ)) :
    load_data (save_data fs filename m) filename = Except.ok m := by
  unfold load_data save_data
  rw [fsGet_fsSet_self]

/-- C8: loading a nonexistent file yields the empty mapping without error,
and a parse error can only arise when the file exists. -/
theorem C8_load_missing (fs : FS) (filename : String) :
    (fsGet fs filename = none → load_data fs filename = Except.ok []) ∧
    ∀ e : Unit, load_data fs filename = Except.error e → fsGet fs filename ≠ none := by
  constructor
  · intro h
    unfold load_data
    rw [h]
  · intro e herr habs
    unfold load_data at herr
    rw [habs] at herr
    exact Except.noConfusion herr

/-- Witness for C8: loading the ingredients file from an empty file system
returns the empty mapping. -/
theorem C8_witness :
    load_data [] INGREDIENTS_FILE = Except.ok [] :=
  (C8_load_missing [] INGREDIENTS_FILE).1 rfl

/-- C9: ingredient-store entries are append-only: a stored name-to-cost
entry keeps its value across every sequence of user-level operations. -/
theorem C9_ingredient_store_append_only (ops : List Op) (st : MState) (k : String) (v : ℚ)
    (h : dictGet st.ingredients_db k = some v) :
    dictGet (runOps st ops).ingredients_db k = some v := by
  induction ops generalizing st with
  | nil => exact h
  | cons op rest ih =>
    simp only [runOps, List.foldl] at ih ⊢
    exact ih (runOp st op) (runOp_ing_mono st op k v h)

/-- Witness for C9: a stored cost for "Flour" survives a view operation. -/
theorem C9_witness :
    dictGet (runOps (MState.mk [("Flour", 1/100)] [] []) [Op.view]).ingredients_db "Flour"
      = some (1/100) :=
  C9_ingredient_store_append_only [Op.view] (MState.mk [("Flour", 1/100)] [] [])
    "Flour" (1/100) rfl

/-- C10: the two-clause fuzzy filter (substring or startswith) computes
the same candidate list as the substring clause alone: the startswith
clause never admits an extra candidate. -/
theorem C10_startswith_redundant (input_name : String) (valid_names : List String) :
    suggestions input_name valid_names = suggestionsContainsOnly input_name valid_names := by
  unfold suggestions suggestionsContainsOnly
  apply List.filter_congr
  intro name _
  by_cases h : (pyLower input_name).data <:+: (pyLower name).data
  · simp [h]
  · have hb : ¬ (pyLower input_name).data <+: (pyLower name).data :=
      fun hpre => h (prefix_implies_substring hpre)
    simp [h, hb]

end RecipeCosting
